import Mathlib

/-!
Verification of the execution-control core of the polybot trading loop
(src/bot.py) against its natural-language specification.

Modelling conventions, used throughout:
* JSON / Python values that flow through the ledger are modelled by the
  inductive type JVal; Python numbers (int and float alike) are modelled as
  exact rationals (the type Q below, a normalized fraction whose operations
  reduce inside the kernel).
* A missing dictionary key and an explicit null are both modelled as
  JVal.null: the source only ever reads these values through .get, which
  returns None in both cases, so the two are observationally identical.
* Each call to time.time() within one poll cycle is modelled by the single
  cycle-level clock value; the source takes several readings per cycle but
  no verified property depends on intra-cycle clock drift.
* External effects (candidate fetch, live order submission, pick POST) are
  modelled as oracle inputs carried by the cycle input or the candidate.
-/

/-- Euclid's algorithm with an explicit structural fuel so that the kernel
can evaluate it. -/
def gcdFuel : Nat → Nat → Nat → Nat
  | _, 0, b => b
  | 0, _, b => b
  | f + 1, a, b => gcdFuel f (b % a) a

/-- Greatest common divisor, kernel-computable. -/
def gcdF (a b : Nat) : Nat := gcdFuel (a + 1) a b

/-- Exact rational numbers with a positive denominator, kept normalized by
the smart operations below. Models Python int and float arithmetic of the
bot exactly. -/
structure Q where
  num : Int
  den : Nat
deriving DecidableEq

/-- Build a normalized fraction n / d. -/
def Q.norm (n d : Int) : Q :=
  if d = 0 then ⟨0, 1⟩
  else
    let n' := if d < 0 then -n else n
    let dn : Nat := d.natAbs
    let g := gcdF n'.natAbs dn
    ⟨Int.tdiv n' (g : Int), dn / g⟩

instance : OfNat Q n := ⟨⟨(n : Int), 1⟩⟩
instance : Neg Q := ⟨fun a => ⟨-a.num, a.den⟩⟩
instance : Add Q := ⟨fun a b => Q.norm (a.num * (b.den : Int) + b.num * (a.den : Int)) ((a.den : Int) * (b.den : Int))⟩
instance : Sub Q := ⟨fun a b => Q.norm (a.num * (b.den : Int) - b.num * (a.den : Int)) ((a.den : Int) * (b.den : Int))⟩
instance : Mul Q := ⟨fun a b => Q.norm (a.num * b.num) ((a.den : Int) * (b.den : Int))⟩
instance : Div Q := ⟨fun a b => Q.norm (a.num * (b.den : Int)) ((a.den : Int) * b.num)⟩
instance : LE Q := ⟨fun a b => a.num * (b.den : Int) ≤ b.num * (a.den : Int)⟩
instance : LT Q := ⟨fun a b => a.num * (b.den : Int) < b.num * (a.den : Int)⟩

instance (a b : Q) : Decidable (a ≤ b) :=
  inferInstanceAs (Decidable (a.num * (b.den : Int) ≤ b.num * (a.den : Int)))
instance (a b : Q) : Decidable (a < b) :=
  inferInstanceAs (Decidable (a.num * (b.den : Int) < b.num * (a.den : Int)))

/-- Python min of two numbers (returns the first argument on ties). -/
def qmin (a b : Q) : Q := if a ≤ b then a else b

/-- Python int() truncation toward zero. -/
def pyTrunc (q : Q) : Int := Int.tdiv q.num (q.den : Int)

/-- Floor of a rational. -/
def qfloor (q : Q) : Int := Int.fdiv q.num (q.den : Int)

/-- A rational from an integer. -/
def Q.ofInt (n : Int) : Q := ⟨n, 1⟩

/-- A JSON-like runtime value as handled by the bot's state code. Numbers
(Python int and float alike) are modelled as exact rationals. -/
inductive JVal where
  | null
  | bool (b : Bool)
  | num (q : Q)
  | str (s : String)
  | list (xs : List JVal)
  | dict (kvs : List (String × JVal))

/-- Characters stripped by Python str.strip(): ASCII whitespace. -/
def pySpace (c : Char) : Bool :=
  c = ' ' || c = '\t' || c = '\n' || c = '\r' || c = Char.ofNat 11 || c = Char.ofNat 12

/-- Python str.strip() on ASCII whitespace. -/
def pyStrip (s : String) : String :=
  String.mk (((s.data.dropWhile pySpace).reverse.dropWhile pySpace).reverse)

/-- Digits of a decimal numeral folded into a Nat. -/
def digitsToNat (l : List Char) : Nat :=
  l.foldl (fun a c => 10 * a + (c.toNat - 48)) 0

/-- Python int("...") : strip, optional sign, one or more ASCII digits;
returns none where Python int() raises. -/
def pyIntOfString (s : String) : Option Int :=
  let t := (pyStrip s).data
  match t with
  | '+' :: ds => if ds ≠ [] ∧ ds.all Char.isDigit then some (digitsToNat ds) else none
  | '-' :: ds => if ds ≠ [] ∧ ds.all Char.isDigit then some (-(digitsToNat ds : Int)) else none
  | ds => if ds ≠ [] ∧ ds.all Char.isDigit then some (digitsToNat ds) else none

/-- Python int(x) on a runtime value; none where int() raises. Bools are
ints in Python (True = 1); floats truncate toward zero. -/
def pyInt : JVal → Option Int
  | .null => none
  | .bool b => some (if b then 1 else 0)
  | .num q => some (pyTrunc q)
  | .str s => pyIntOfString s
  | .list _ => none
  | .dict _ => none

/-- Gregorian leap-year test. -/
def isLeap (y : Nat) : Bool :=
  (y % 4 == 0 && y % 100 != 0) || y % 400 == 0

/-- Days in a month of the Gregorian calendar. -/
def daysInMonth (y m : Nat) : Nat :=
  if m = 2 then (if isLeap y then 29 else 28)
  else if m = 4 ∨ m = 6 ∨ m = 9 ∨ m = 11 then 30
  else 31

/-- Days from the Unix epoch (1970-01-01) to the given civil date,
standard era-based civil-calendar computation (valid for year ≥ 1). -/
def epochDays (y mo d : Nat) : Int :=
  let y' := if mo ≤ 2 then y - 1 else y
  let era := y' / 400
  let yoe := y' % 400
  let mp := (mo + 9) % 12
  let doy := (153 * mp + 2) / 5 + d - 1
  let doe := yoe * 365 + yoe / 4 - yoe / 100 + doy
  ((era * 146097 + doe : Nat) : Int) - 719468

/-- A parsed datetime as produced by datetime.datetime.fromisoformat:
civil components plus an optional UTC offset in seconds. -/
structure PyDateTime where
  year : Nat
  month : Nat
  day : Nat
  hour : Nat
  minute : Nat
  second : Nat
  microsecond : Nat
  tzOffset : Option Int
deriving DecidableEq

/-- Read exactly n ASCII digits from the front of a character list. -/
def takeDigitsAux : Nat → Nat → List Char → Option (Nat × List Char)
  | 0, acc, l => some (acc, l)
  | n + 1, acc, c :: l =>
      if c.isDigit then takeDigitsAux n (10 * acc + (c.toNat - 48)) l else none
  | _ + 1, _, [] => none

/-- Require a literal character at the front of a character list. -/
def expectChar (c : Char) : List Char → Option (List Char)
  | c' :: l => if c' = c then some l else none
  | [] => none

/-- datetime.datetime.fromisoformat (CPython 3.11+ semantics) on the
ISO-8601 forms the bot's event times use: YYYY-MM-DD, optionally followed
by a T or space separator and HH:MM with optional :SS, optionally
fractional seconds (an ASCII dot and one or more digits, truncated to
microseconds as CPython does), optionally a numeric offset +HH:MM or
-HH:MM. Returns none where fromisoformat raises ValueError. -/
def fromisoformat (l0 : List Char) : Option PyDateTime := do
  let (y, l1) ← takeDigitsAux 4 0 l0
  let l2 ← expectChar '-' l1
  let (mo, l3) ← takeDigitsAux 2 0 l2
  let l4 ← expectChar '-' l3
  let (d, l5) ← takeDigitsAux 2 0 l4
  if 1 ≤ y ∧ y ≤ 9999 ∧ 1 ≤ mo ∧ mo ≤ 12 ∧ 1 ≤ d ∧ d ≤ daysInMonth y mo then
    match l5 with
    | [] => some ⟨y, mo, d, 0, 0, 0, 0, none⟩
    | sep :: l6 =>
      if sep = 'T' ∨ sep = ' ' then do
        let (h, l7) ← takeDigitsAux 2 0 l6
        let l8 ← expectChar ':' l7
        let (mi, l9) ← takeDigitsAux 2 0 l8
        let (sec, micro, l10) ←
          (match l9 with
           | ':' :: l9' => do
               let (sec, la) ← takeDigitsAux 2 0 l9'
               (match la with
                | '.' :: lb =>
                    let ds := lb.takeWhile Char.isDigit
                    if ds = [] then none
                    else
                      let d6 := ds.take 6
                      some (sec, digitsToNat d6 * 10 ^ (6 - d6.length),
                        lb.drop ds.length)
                | _ => some (sec, 0, la))
           | _ => some (0, 0, l9))
        if h ≤ 23 ∧ mi ≤ 59 ∧ sec ≤ 59 then
          match l10 with
          | [] => some ⟨y, mo, d, h, mi, sec, micro, none⟩
          | sign :: l11 =>
            if sign = '+' ∨ sign = '-' then do
              let (oh, l12) ← takeDigitsAux 2 0 l11
              let l13 ← expectChar ':' l12
              let (om, l14) ← takeDigitsAux 2 0 l13
              if oh ≤ 23 ∧ om ≤ 59 ∧ l14 = [] then
                let off : Int := (oh * 3600 + om * 60 : Nat)
                some ⟨y, mo, d, h, mi, sec, micro,
                  some (if sign = '-' then -off else off)⟩
              else none
            else none
        else none
      else none
  else none

/-- int(datetime.timestamp()) of a parsed datetime, a missing zone
treated as UTC (the source replaces a missing tzinfo with UTC before the
call). The whole-second part below is the floor of the real timestamp;
int() truncates toward zero, so a negative timestamp with a nonzero
fractional part rounds up by one. -/
def pyTimestamp (dt : PyDateTime) : Int :=
  let e : Int := epochDays dt.year dt.month dt.day * 86400
    + (dt.hour * 3600 + dt.minute * 60 + dt.second : Nat)
    - dt.tzOffset.getD 0
  if 0 ≤ e ∨ dt.microsecond = 0 then e else e + 1

/-- Python str.replace("Z", "+00:00") over the characters of the text. -/
def replaceZ : List Char → List Char
  | [] => []
  | c :: rest =>
      if c = 'Z' then '+' :: '0' :: '0' :: ':' :: '0' :: '0' :: replaceZ rest
      else c :: replaceZ rest

/-- Shared numeric branch of parse_event_time_seconds: magnitudes above
10^12 are epoch milliseconds, nonpositive results are rejected. -/
def numEventTime (q : Q) : Option Int :=
  let v := if (1000000000000 : Q) < q then q / 1000 else q
  if (0 : Q) < v then some (pyTrunc v) else none

/-- parse_event_time_seconds from src/bot.py lines 189-216: numeric epoch
seconds (milliseconds above 10^12), all-digit text likewise, otherwise
ISO-8601 text via fromisoformat with Z rewritten to +00:00 and a missing
zone treated as UTC; anything unparseable yields none. -/
def parse_event_time_seconds : JVal → Option Int
  | .null => none
  | .bool b => numEventTime (if b then 1 else 0)
  | .num q => numEventTime q
  | .list _ => none
  | .dict _ => none
  | .str s =>
    let text := pyStrip s
    if text.data = [] then none
    else if text.data.all Char.isDigit then
      let v := digitsToNat text.data
      let v' := if v > 1000000000000 then v / 1000 else v
      if v' > 0 then some (v' : Int) else none
    else
      match fromisoformat (replaceZ text.data) with
      | some dt => some (pyTimestamp dt)
      | none => none

/-- A ledger row as stored under a condition id: the values of its
"placedAt" and "eventTime" keys (JVal.null when absent, which the source
reads identically to an explicit null via dict.get). -/
structure Row where
  placedAt : JVal
  eventTime : JVal

/-- Python dict assignment d[k] = v on an association list: replaces the
value at an existing key in place, otherwise appends. -/
def insertA : List (String × Row) → String → Row → List (String × Row)
  | [], k, v => [(k, v)]
  | (k', v') :: rest, k, v =>
      if k' = k then (k, v) :: rest else (k', v') :: insertA rest k v

/-- The placedAt timestamp of a row, defaulted: int(placedAt) when that
conversion succeeds and placedAt is not null, otherwise now. -/
def placedAtOr (now : Int) (r : Row) : Int :=
  (pyInt r.placedAt).getD now

/-- Per-entry retention test of prune_placed_meta (src/bot.py lines
254-267): an entry with a parseable event time is kept iff
now ≤ eventTime + grace; otherwise it is kept iff now - placedAt ≤ ttl. -/
def keepRow (now ttl grace : Int) (r : Row) : Bool :=
  match parse_event_time_seconds r.eventTime with
  | some ev => decide (now ≤ ev + grace)
  | none => decide (now - placedAtOr now r ≤ ttl)

/-- prune_placed_meta from src/bot.py lines 247-268: rebuild the ledger
dict keeping exactly the rows that pass keepRow. -/
def prune_placed_meta (meta : List (String × Row)) (now ttl grace : Int) :
    List (String × Row) :=
  meta.foldl
    (fun acc e => if keepRow now ttl grace e.2 then insertA acc e.1 e.2 else acc) []

/-- The raw persisted state as read by normalize_placed_meta: the values
stored under the "placedMeta" and "placed" keys, if present. -/
structure RawState where
  placedMeta : Option JVal
  placed : Option JVal

/-- One row of a placedMeta dict as normalized by normalize_placed_meta:
a non-dict value behaves as the empty dict; placedAt is int(...) of the
stored value, defaulting to now when missing, null or unconvertible. -/
def normRow (now : Int) (v : JVal) : Row :=
  match v with
  | .dict kvs =>
      let pa : Int :=
        match List.lookup "placedAt" kvs with
        | none => now
        | some pv =>
            match pv with
            | .null => now
            | _ => (pyInt pv).getD now
      ⟨.num (Q.ofInt pa), (List.lookup "eventTime" kvs).getD .null⟩
  | _ => ⟨.num (Q.ofInt now), .null⟩

/-- normalize_placed_meta from src/bot.py lines 219-244: when placedMeta
is a dict, rebuild the ledger from it alone (skipping empty keys);
otherwise fall back to the legacy flat list, giving every non-empty string
item placedAt = now and no event time. -/
def normalize_placed_meta (st : RawState) (now : Int) : List (String × Row) :=
  match st.placedMeta with
  | some (.dict kvs) =>
      kvs.foldl
        (fun acc kv =>
          if kv.1 = "" then acc else insertA acc kv.1 (normRow now kv.2)) []
  | _ =>
      match st.placed.getD (.list []) with
      | .list items =>
          items.foldl
            (fun acc it =>
              match it with
              | .str s =>
                  if s = "" then acc
                  else insertA acc s ⟨.num (Q.ofInt now), .null⟩
              | _ => acc) []
      | _ => []

/-- GRADE_PROB_DEFAULTS from src/bot.py lines 697-703, with the .get
default of 0.50 for unknown grades. -/
def gradeProb (g : String) : Q :=
  if g = "A+" then 60 / 100
  else if g = "A" then 57 / 100
  else if g = "B" then 54 / 100
  else if g = "C" then 52 / 100
  else if g = "D" then 50 / 100
  else 50 / 100

/-- kelly_fraction from src/bot.py lines 715-723. -/
def kelly_fraction (edge_prob price : Q) : Q :=
  if price ≤ 0 ∨ 1 ≤ price then 0
  else
    let b := 1 / price - 1
    let q := 1 - edge_prob
    let numer := b * edge_prob - q
    if numer ≤ 0 ∨ b ≤ 0 then 0
    else numer / b

/-- Round-half-to-even of a rational to an integer, as Python round()
behaves on exact halves. -/
def roundHalfEven (x : Q) : Int :=
  let f := qfloor x
  let r := x - Q.ofInt f
  if r < 1 / 2 then f
  else if (1 / 2 : Q) < r then f + 1
  else if f % 2 = 0 then f else f + 1

/-- Python round(x, 2). -/
def round2 (x : Q) : Q := Q.ofInt (roundHalfEven (x * 100)) / 100

/-- ASCII alphanumeric character class [A-Za-z0-9]. -/
def isAlnum (c : Char) : Bool :=
  (('A' ≤ c && c ≤ 'Z') || ('a' ≤ c && c ≤ 'z') || ('0' ≤ c && c ≤ '9'))

/-- Strip a literal prefix from a character list. -/
def stripPre : List Char → List Char → Option (List Char)
  | [], l => some l
  | _ :: _, [] => none
  | p :: ps, c :: cs => if c = p then stripPre ps cs else none

/-- The marker both regexes of extract_cloudflare_ray_id demand: the raw
pattern source is "Cloudflare Ray ID:\\s*", which as a regex is the
literal text, one literal backslash, then zero or more letters s. -/
def rayMarker : List Char := "Cloudflare Ray ID:\\".data

/-- Match the first regex of extract_cloudflare_ray_id at the current
position: marker, s*, <strong, non-> run, >, a nonempty non-< capture,
</strong>. -/
def rayMatchStrongAt (l : List Char) : Option (List Char) := do
  let r1 ← stripPre rayMarker l
  let r2 := r1.dropWhile (· = 's')
  let r3 ← stripPre "<strong".data r2
  let r4 := r3.dropWhile (· ≠ '>')
  match r4 with
  | '>' :: r5 =>
      let cap := r5.takeWhile (· ≠ '<')
      if cap = [] then none
      else
        let r6 := r5.drop cap.length
        match stripPre "</strong>".data r6 with
        | some _ => some cap
        | none => none
  | _ => none

/-- Match the second regex of extract_cloudflare_ray_id at the current
position: marker, s* (greedily, giving one s back to the capture when
nothing alphanumeric follows the run), then a nonempty [A-Za-z0-9]+
capture. -/
def rayMatchBareAt (l : List Char) : Option (List Char) := do
  let r1 ← stripPre rayMarker l
  let sRun := r1.takeWhile (· = 's')
  let r2 := r1.drop sRun.length
  match r2 with
  | c :: _ =>
      if isAlnum c then some (r2.takeWhile isAlnum)
      else if sRun ≠ [] then some ['s']
      else none
  | [] => if sRun ≠ [] then some ['s'] else none

/-- re.search: try a positional matcher at each start, leftmost first. -/
def reSearch (m : List Char → Option (List Char)) : List Char → Option (List Char)
  | [] => m []
  | c :: rest =>
      match m (c :: rest) with
      | some r => some r
      | none => reSearch m rest

/-- extract_cloudflare_ray_id from src/bot.py lines 588-595: first regex
(strong-wrapped capture) then second (bare alphanumeric capture), each
capture stripped; none when neither matches. -/
def extract_cloudflare_ray_id (error_text : String) : Option String :=
  match reSearch rayMatchStrongAt error_text.data with
  | some cap => some (pyStrip (String.mk cap))
  | none =>
      match reSearch rayMatchBareAt error_text.data with
      | some cap => some (pyStrip (String.mk cap))
      | none => none

/-- A candidate as consumed by place_bet and the poll loop: the entry
fields the control flow reads, plus oracles for the two external calls the
dispatcher may make for it (live order submission and pick POST). -/
structure Candidate where
  conditionId : Option String
  price : Option Q
  grade : String
  eventTime : JVal
  live : Except String Unit
  post : Except String Unit

/-- The configuration fields the execution-control core reads. -/
structure Config where
  lowRoi : Q
  kellyFrac : Q
  maxStake : Q
  minStake : Q
  fixedStake : Q
  paperBankroll : Q
  dryRun : Bool
  stopOn403 : Bool
  maxBets : Nat
  maxCallsPerHour : Int
  placedTtl : Int
  placedGrace : Int
  backoffBase : Q
  backoffMax : Q
  runWindow : Option ((Nat × Nat) × (Nat × Nat))

/-- The fields of a trade-log record that the verified properties speak
about (src/bot.py lines 757-767 and 798-804). -/
structure Trade where
  conditionId : Option String
  stake : Q
  mode : String
  error : Option String
  rayId : Option String

/-- The stake-sizing pipeline of place_bet (src/bot.py lines 734-755):
none means the candidate is rejected with no stake; some s is the final
stake the dispatcher uses. -/
def stakeDecision (cfg : Config) (bankroll : Q) (c : Candidate) : Option Q :=
  match c.price with
  | none => none
  | some p =>
    if cfg.lowRoi ≤ p then none
    else
      let prob := gradeProb c.grade
      let kelly := kelly_fraction prob p
      let stake0 := bankroll * kelly * cfg.kellyFrac
      let stake1 := if 0 < cfg.fixedStake then cfg.fixedStake else stake0
      let stake2 := qmin stake1 cfg.maxStake
      if stake2 < cfg.minStake then none else some stake2

/-- Everything place_bet produces: its return value, the bankroll after
the call, the trade records appended, the pick POSTs attempted (by
condition id; failures are swallowed), and whether it exited the process
via the stop-on-403 path. -/
structure PBRes where
  ret : Bool
  bankroll : Q
  trades : List Trade
  posts : List (Option String)
  exited : Bool

/-- place_bet from src/bot.py lines 726-840. The live order submission is
the candidate's live oracle; the pick POST is attempted exactly when the
placement succeeded and its failure changes nothing. -/
def place_bet (cfg : Config) (bankroll : Q) (c : Candidate) : PBRes :=
  match stakeDecision cfg bankroll c with
  | none => ⟨false, bankroll, [], [], false⟩
  | some stake =>
    if cfg.dryRun then
      ⟨true, round2 (bankroll - stake),
        [⟨c.conditionId, round2 stake, "paper", none, none⟩],
        [c.conditionId], false⟩
    else
      match c.live with
      | .ok _ =>
          ⟨true, round2 (bankroll - stake),
            [⟨c.conditionId, round2 stake, "live", none, none⟩],
            [c.conditionId], false⟩
      | .error e =>
          let ray := extract_cloudflare_ray_id e
          let t : Trade := ⟨c.conditionId, round2 stake, "paper", some e, ray⟩
          if ray.isSome ∧ cfg.stopOn403 then ⟨false, bankroll, [t], [], true⟩
          else ⟨false, bankroll, [t], [], false⟩

/-- Result of the per-cycle candidate pass. -/
structure CandOut where
  pm : List (String × Row)
  bankroll : Q
  dispatched : List String
  trades : List Trade
  posts : List (Option String)
  exited : Bool

/-- The candidate for-loop of run_loop (src/bot.py lines 925-966):
skip candidates with a missing or empty condition id, skip condition ids
already in the ledger, otherwise dispatch via place_bet; a successful
placement inserts the id with placedAt = now and the entry's raw event
time, and the pass stops early at max_bets placements or when the
dispatcher exits the process. -/
def candLoop (cfg : Config) (nowI : Int) :
    List Candidate → List (String × Row) → Q → Nat → CandOut
  | [], pm, bk, _ => ⟨pm, bk, [], [], [], false⟩
  | c :: rest, pm, bk, n =>
    match c.conditionId with
    | none => candLoop cfg nowI rest pm bk n
    | some cid =>
      if cid = "" then candLoop cfg nowI rest pm bk n
      else if cid ∈ pm.map Prod.fst then candLoop cfg nowI rest pm bk n
      else
        let r := place_bet cfg bk c
        if r.exited then ⟨pm, bk, [cid], r.trades, r.posts, true⟩
        else if r.ret then
          let pm' := insertA pm cid ⟨.num (Q.ofInt nowI), c.eventTime⟩
          if n + 1 ≥ cfg.maxBets then ⟨pm', r.bankroll, [cid], r.trades, r.posts, false⟩
          else
            let o := candLoop cfg nowI rest pm' r.bankroll (n + 1)
            ⟨o.pm, o.bankroll, cid :: o.dispatched, r.trades ++ o.trades,
              r.posts ++ o.posts, o.exited⟩
        else
          let o := candLoop cfg nowI rest pm r.bankroll n
          ⟨o.pm, o.bankroll, cid :: o.dispatched, r.trades ++ o.trades,
            r.posts ++ o.posts, o.exited⟩

/-- is_within_window from src/bot.py lines 623-634. -/
def is_within_window (nowH nowM : Nat) (s e : Nat × Nat) : Bool :=
  let sm := s.1 * 60 + s.2
  let em := e.1 * 60 + e.2
  let nm := nowH * 60 + nowM
  if sm ≤ em then sm ≤ nm && nm ≤ em
  else nm ≥ sm || nm ≤ em

/-- Insert a string into a sorted list of strings. -/
def insSorted (s : String) : List String → List String
  | [] => [s]
  | x :: xs => if s ≤ x then s :: x :: xs else x :: insSorted s xs

/-- Python sorted() on a list of strings (insertion sort). -/
def sortStrings (l : List String) : List String := l.foldr insSorted []

/-- The persisted BotState document as written at the end of a cycle
(src/bot.py lines 974-976): bankroll plus both ledger representations. -/
structure StateDoc where
  bankroll : Q
  placed : List String
  placedMeta : List (String × Row)

/-- The in-memory loop state between cycles: the working ledger map, the
rate window, the backoff scalar, and the BotState dict contents (bankroll
and the ledger fields last assigned into it). -/
structure LoopState where
  placedMeta : List (String × Row)
  callTimestamps : List Q
  backoff : Q
  bankroll : Q
  docPlaced : List String
  docPlacedMeta : List (String × Row)

/-- Input to one poll-loop cycle: the clock, the local wall-clock reading
for the run-window gate (none when timezone resolution fails), and the
outcome of the candidate fetch if one is attempted. -/
structure CycleInput where
  now : Q
  localTime : Option (Nat × Nat)
  fetch : Except String (List Candidate)

/-- Everything observable about one cycle: the successor state, the keys
of the pruned ledger at cycle start, the condition ids passed to
place_bet, the trade records appended, the pick POSTs attempted, the
document passed to save_state (none when no flush happened), whether the
fetch/dispatch phase was reached, and whether the process exited. -/
structure CycleOut where
  st : LoopState
  placedStart : List String
  dispatched : List String
  trades : List Trade
  posts : List (Option String)
  saved : Option StateDoc
  fetchAttempted : Bool
  exited : Bool

/-- The run-window gate at the top of a cycle (src/bot.py lines 867-879):
blocks only when both window bounds are configured, local time resolves,
and the local time is outside the window. -/
def gateBlocks (cfg : Config) (inp : CycleInput) : Bool :=
  match cfg.runWindow with
  | some (ws, we) =>
      match inp.localTime with
      | some (h, m) => !(is_within_window h m ws we)
      | none => false
  | none => false

/-- The rate-window pruning of run_loop line 889: keep timestamps with
now - t < 3600. -/
def rateKept (w : List Q) (now : Q) : List Q :=
  w.filter (fun t => now - t < 3600)

/-- The rate-cap test of run_loop line 890: reject when the cap is
positive and the kept window has reached it. -/
def rateRejects (cap : Int) (keptLen : Nat) : Bool :=
  decide (0 < cap) && decide (cap ≤ (keptLen : Int))

/-- The backoff update of run_loop lines 979-983 as applied to the
current backoff value b. -/
def backoffBump (cfg : Config) (b : Q) : Q :=
  if 0 < cfg.backoffBase then
    qmin cfg.backoffMax (if b = 0 then cfg.backoffBase else b * 2)
  else b

/-- One iteration of run_loop (src/bot.py lines 865-985): run-window
gate, ledger prune, rate-cap check, backoff consumption, candidate fetch
(the only point whose exception reaches the cycle-level handler in this
model), candidate pass, then end-of-cycle assignment into the state dict
and save_state. -/
def runCycle (cfg : Config) (st : LoopState) (inp : CycleInput) : CycleOut :=
  if gateBlocks cfg inp then
    ⟨st, [], [], [], [], none, false, false⟩
  else
    let nowI := pyTrunc inp.now
    let pm := prune_placed_meta st.placedMeta nowI cfg.placedTtl cfg.placedGrace
    let kept := rateKept st.callTimestamps inp.now
    if rateRejects cfg.maxCallsPerHour kept.length then
      ⟨{ st with placedMeta := pm, callTimestamps := kept },
        pm.map Prod.fst, [], [], [], none, false, false⟩
    else
      let cts := kept ++ [inp.now]
      match inp.fetch with
      | .error _ =>
          let st' : LoopState :=
            ⟨pm, cts, backoffBump cfg 0, st.bankroll, st.docPlaced, st.docPlacedMeta⟩
          ⟨st', pm.map Prod.fst, [], [], [], none, true, false⟩
      | .ok cands =>
          let o := candLoop cfg nowI cands pm st.bankroll 0
          if o.exited then
            let st' : LoopState :=
              ⟨o.pm, cts, 0, o.bankroll, st.docPlaced, st.docPlacedMeta⟩
            ⟨st', pm.map Prod.fst, o.dispatched, o.trades, o.posts, none, true, true⟩
          else
            let doc : StateDoc := ⟨o.bankroll, sortStrings (o.pm.map Prod.fst), o.pm⟩
            ⟨⟨o.pm, cts, 0, o.bankroll, doc.placed, doc.placedMeta⟩,
              pm.map Prod.fst, o.dispatched, o.trades, o.posts, some doc, true, false⟩

/-- Iterated cycles of run_loop; the trace stops after a cycle in which
the dispatcher exited the process. -/
def runCycles (cfg : Config) : LoopState → List CycleInput → List CycleOut × LoopState
  | st, [] => ([], st)
  | st, i :: rest =>
      let o := runCycle cfg st i
      if o.exited then ([o], o.st)
      else
        let r := runCycles cfg o.st rest
        (o :: r.1, r.2)

/-- File-system operations save_state can perform. -/
inductive FileOp where
  | makedirs (dir : String)
  | openTrunc (path : String)
  | writeAll (path : String) (content : String)
  | rename (src dst : String)
deriving DecidableEq

/-- os.path.dirname for relative paths: everything before the last slash. -/
def dirname (p : String) : String :=
  let parts := p.splitOn "/"
  if parts.length ≤ 1 then "" else String.intercalate "/" parts.dropLast

/-- save_state from src/bot.py lines 183-186 as its file-operation trace:
ensure the parent directory, open the persisted path itself for writing
(truncating it), and write the serialized document (abstracted as the
string content) into it. -/
def save_state_ops (path : String) (content : String) : List FileOp :=
  [.makedirs (dirname path), .openTrunc path, .writeAll path content]

/-- Effect of one file operation on a filesystem mapping paths to
contents. -/
def applyOp (fs : String → Option String) : FileOp → String → Option String
  | .makedirs _ => fs
  | .openTrunc p => fun q => if q = p then some "" else fs q
  | .writeAll p c => fun q => if q = p then some c else fs q
  | .rename s d => fun q => if q = d then fs s else if q = s then none else fs q

/-- The atomic write-then-promote pattern the specification claims: the
document is first written to some temporary location distinct from the
persisted path, which is later renamed onto it. -/
def atomicWritePattern (path content : String) (ops : List FileOp) : Prop :=
  ∃ tmp, tmp ≠ path ∧ FileOp.writeAll tmp content ∈ ops ∧ FileOp.rename tmp path ∈ ops

/-- The admission rule exactly as the claim states it: drop timestamps
strictly older than 3600 seconds, then admit iff the cap is disabled or
the remaining count is below it. -/
def admitSpecC9 (window : List Q) (now : Q) (cap : Int) : Bool :=
  let kept := window.filter (fun t => !(3600 < now - t))
  decide (cap ≤ 0) || decide ((kept.length : Int) < cap)

/-- The stake-sizing pipeline as the specification words it: low-ROI
rejection first, then the fractional-Kelly raw stake, then the
fixed-stake override, then the max-stake ceiling, then the min-stake
rejection. -/
def stakeSpec (cfg : Config) (bankroll : Q) (c : Candidate) : Option Q :=
  match c.price with
  | none => none
  | some price =>
    if cfg.lowRoi ≤ price then none
    else
      let rawStake := bankroll * kelly_fraction (gradeProb c.grade) price * cfg.kellyFrac
      let afterFixed := if 0 < cfg.fixedStake then cfg.fixedStake else rawStake
      let clamped := qmin afterFixed cfg.maxStake
      if clamped < cfg.minStake then none else some clamped

/-- kellyFraction as the specification words it: 0 outside (0, 1); with
b = 1/price - 1, q = 1 - edgeProb, numerator = b*edgeProb - q, the result
is 0 when numerator ≤ 0 or b ≤ 0 and numerator / b otherwise. -/
def kellySpec (edgeProb price : Q) : Q :=
  if price ≤ 0 ∨ 1 ≤ price then 0
  else
    let b := 1 / price - 1
    let q := 1 - edgeProb
    let numerator := b * edgeProb - q
    if numerator ≤ 0 ∨ b ≤ 0 then 0 else numerator / b

/-- Whether an optional value is present and a dict. -/
def isDictOpt : Option JVal → Bool
  | some (.dict _) => true
  | _ => false

/-- Whether a value is a dict. -/
def isDict : JVal → Bool
  | .dict _ => true
  | _ => false

lemma qle_of_lt {a b : Q} (h : a < b) : a ≤ b := Int.le_of_lt h

lemma insertA_of_not_mem (k : String) (v : Row) :
    ∀ kvs : List (String × Row), k ∉ kvs.map Prod.fst →
      insertA kvs k v = kvs ++ [(k, v)] := by
  intro kvs
  induction kvs with
  | nil => intro _; rfl
  | cons e rest ih =>
      intro h
      simp only [List.map_cons, List.mem_cons] at h
      push_neg at h
      simp only [insertA]
      rw [if_neg (Ne.symm h.1), ih h.2]
      rfl

lemma mem_insertA_keys (k k' : String) (v : Row) :
    ∀ kvs : List (String × Row), k ∈ kvs.map Prod.fst →
      k ∈ (insertA kvs k' v).map Prod.fst := by
  intro kvs
  induction kvs with
  | nil => intro h; cases h
  | cons e rest ih =>
      intro h
      simp only [List.map_cons, List.mem_cons] at h
      by_cases he : e.1 = k'
      · simp only [insertA, if_pos he, List.map_cons, List.mem_cons]
        rcases h with h | h
        · exact Or.inl (h.trans he)
        · exact Or.inr h
      · simp only [insertA, if_neg he, List.map_cons, List.mem_cons]
        rcases h with h | h
        · exact Or.inl h
        · exact Or.inr (ih h)

lemma prune_go (now ttl grace : Int) :
    ∀ (meta acc : List (String × Row)),
      (meta.map Prod.fst).Nodup →
      (∀ k ∈ meta.map Prod.fst, k ∉ acc.map Prod.fst) →
      meta.foldl
        (fun a e => if keepRow now ttl grace e.2 then insertA a e.1 e.2 else a) acc
        = acc ++ meta.filter (fun e => keepRow now ttl grace e.2) := by
  intro meta
  induction meta with
  | nil => intro acc _ _; simp
  | cons e rest ih =>
      intro acc hnd hdisj
      simp only [List.map_cons, List.nodup_cons] at hnd
      by_cases hk : keepRow now ttl grace e.2 = true
      · simp only [List.foldl_cons]
        rw [if_pos hk, insertA_of_not_mem e.1 e.2 acc (hdisj e.1 (by simp))]
        rw [ih (acc ++ [(e.1, e.2)]) hnd.2 ?_]
        · simp [List.filter_cons, hk]
        · intro k hkmem
          simp only [List.map_append, List.mem_append]
          rintro (hc | hc)
          · exact hdisj k (by simp [hkmem]) hc
          · simp only [List.map_cons, List.map_nil, List.mem_singleton] at hc
            exact hnd.1 (hc ▸ hkmem)
      · simp only [List.foldl_cons]
        rw [if_neg hk, ih acc hnd.2 (fun k hkmem => hdisj k (by simp [hkmem]))]
        simp [List.filter_cons, hk]

lemma prune_eq_filter (meta : List (String × Row)) (now ttl grace : Int)
    (hnd : (meta.map Prod.fst).Nodup) :
    prune_placed_meta meta now ttl grace
      = meta.filter (fun e => keepRow now ttl grace e.2) := by
  unfold prune_placed_meta
  have := prune_go now ttl grace meta [] hnd (by intro k _; simp)
  simpa using this

lemma keepRow_iff (now ttl grace : Int) (row : Row) :
    keepRow now ttl grace row = true ↔
      (match parse_event_time_seconds row.eventTime with
       | some ev => now ≤ ev + grace
       | none => now - placedAtOr now row ≤ ttl) := by
  unfold keepRow
  cases h : parse_event_time_seconds row.eventTime <;> simp [h]

/-- C1: prune_placed_meta retains an entry with a parseable event time
iff now ≤ eventTime + grace (ttl has no influence there), and any other
entry iff now - placedAt ≤ ttl with a missing or unconvertible placedAt
defaulting to now, so that such an entry survives whenever ttl is
nonnegative; event times parse as epoch seconds, epoch milliseconds above
10^12, or ISO-8601 text - with or without fractional seconds, as the
upstream service emits them - with a missing zone or trailing Z read as
UTC. -/
theorem claim_C1 :
    (∀ (meta : List (String × Row)) (now ttl grace : Int),
      (meta.map Prod.fst).Nodup →
      ∀ cid row,
        ((cid, row) ∈ prune_placed_meta meta now ttl grace ↔
          (cid, row) ∈ meta ∧
            (match parse_event_time_seconds row.eventTime with
             | some ev => now ≤ ev + grace
             | none => now - placedAtOr now row ≤ ttl)))
    ∧ (∀ (row : Row) (now ttl ttl' grace ev : Int),
        parse_event_time_seconds row.eventTime = some ev →
        keepRow now ttl grace row = keepRow now ttl' grace row)
    ∧ (∀ (now ttl grace : Int), 0 ≤ ttl →
        keepRow now ttl grace ⟨.null, .null⟩ = true)
    ∧ parse_event_time_seconds (JVal.num 1700000000) = some 1700000000
    ∧ parse_event_time_seconds (JVal.num 1700000000000) = some 1700000000
    ∧ parse_event_time_seconds (JVal.str "2024-01-02T03:04:05Z") = some 1704164645
    ∧ parse_event_time_seconds (JVal.str "2024-01-02T03:04:05.123Z") = some 1704164645
    ∧ parse_event_time_seconds (JVal.str "2024-01-02T03:04:05.123456") = some 1704164645
    ∧ parse_event_time_seconds (JVal.str "2024-01-02T03:04:05") = some 1704164645
    ∧ parse_event_time_seconds (JVal.str "1969-12-31T23:59:59.5Z") = some 0
    ∧ parse_event_time_seconds (JVal.str "not a time") = none := by
  refine ⟨?_, ?_, ?_, rfl, rfl, rfl, rfl, rfl, rfl, rfl, rfl⟩
  · intro meta now ttl grace hnd cid row
    rw [prune_eq_filter meta now ttl grace hnd, List.mem_filter]
    exact and_congr_right fun _ => keepRow_iff now ttl grace row
  · intro row now ttl ttl' grace ev h
    unfold keepRow
    rw [h]
  · intro now ttl grace h
    unfold keepRow
    have : parse_event_time_seconds (Row.mk .null .null).eventTime = none := rfl
    rw [this]
    simp only [placedAtOr, pyInt, Option.getD, decide_eq_true_eq]
    omega

/-- Witness for C1 at a concrete ledger: an entry with no event time and
placedAt 3 is retained at now = 5 with ttl 10. -/
theorem claim_C1_witness :
    ("a", (⟨.num 3, .null⟩ : Row)) ∈
      prune_placed_meta [("a", ⟨.num 3, .null⟩)] 5 10 0 :=
  (claim_C1.1 [("a", ⟨.num 3, .null⟩)] 5 10 0 (by simp) "a" ⟨.num 3, .null⟩).mpr
    ⟨List.mem_singleton.mpr rfl,
      show (5 : Int) - placedAtOr 5 ⟨.num 3, .null⟩ ≤ 10 by decide⟩

lemma candLoop_skips_placed (cfg : Config) (nowI : Int) :
    ∀ (cands : List Candidate) (pm : List (String × Row)) (bk : Q) (n : Nat)
      (cid : String), cid ∈ pm.map Prod.fst →
      cid ∉ (candLoop cfg nowI cands pm bk n).dispatched := by
  intro cands
  induction cands with
  | nil => intro pm bk n cid _ hmem; simp [candLoop] at hmem
  | cons c rest ih =>
      intro pm bk n cid hpm
      unfold candLoop
      cases hc : c.conditionId with
      | none => exact ih pm bk n cid hpm
      | some cid' =>
          by_cases h1 : cid' = ""
          · simp only [if_pos h1]
            exact ih pm bk n cid hpm
          · simp only [if_neg h1]
            by_cases h2 : cid' ∈ pm.map Prod.fst
            · simp only [if_pos h2]
              exact ih pm bk n cid hpm
            · have hne : cid ≠ cid' := fun he => h2 (he ▸ hpm)
              simp only [if_neg h2]
              by_cases h3 : (place_bet cfg bk c).exited = true
              · simp only [if_pos h3, List.mem_singleton]
                exact hne
              · simp only [if_neg h3]
                by_cases h4 : (place_bet cfg bk c).ret = true
                · simp only [if_pos h4]
                  by_cases h5 : n + 1 ≥ cfg.maxBets
                  · simp only [if_pos h5, List.mem_singleton]
                    exact hne
                  · simp only [if_neg h5, List.mem_cons]
                    rintro (he | hmem)
                    · exact hne he
                    · exact ih _ _ _ cid
                        (mem_insertA_keys cid cid' _ pm hpm) hmem
                · simp only [if_neg h4, List.mem_cons]
                  rintro (he | hmem)
                  · exact hne he
                  · exact ih _ _ _ cid hpm hmem

lemma runCycle_skips_placed (cfg : Config) (st : LoopState) (i : CycleInput) :
    ∀ cid ∈ (runCycle cfg st i).placedStart,
      cid ∉ (runCycle cfg st i).dispatched := by
  intro cid hmem
  unfold runCycle at *
  by_cases hg : gateBlocks cfg i = true
  · simp only [if_pos hg] at hmem
    cases hmem
  · simp only [if_neg hg] at hmem ⊢
    by_cases hr : rateRejects cfg.maxCallsPerHour
        (rateKept st.callTimestamps i.now).length = true
    · simp only [if_pos hr]
      simp
    · simp only [if_neg hr] at hmem ⊢
      cases hf : i.fetch with
      | error e => simp [hf]
      | ok cands =>
          simp only [hf] at hmem ⊢
          by_cases he : (candLoop cfg (pyTrunc i.now) cands
              (prune_placed_meta st.placedMeta (pyTrunc i.now) cfg.placedTtl
                cfg.placedGrace) st.bankroll 0).exited = true
          · simp only [if_pos he] at hmem ⊢
            exact candLoop_skips_placed cfg (pyTrunc i.now) cands _ st.bankroll 0 cid
              (by simpa using hmem)
          · simp only [if_neg he] at hmem ⊢
            exact candLoop_skips_placed cfg (pyTrunc i.now) cands _ st.bankroll 0 cid
              (by simpa using hmem)

/-- C2: in every cycle of the poll loop, every condition id present in
the pruned ledger at cycle start is skipped: it is never among the
condition ids passed to place_bet in that cycle (and, the ledger being
re-pruned at the top of every cycle, in any later cycle while it remains
in the pruned map). -/
theorem claim_C2 :
    ∀ (cfg : Config) (st : LoopState) (inps : List CycleInput),
      ∀ o ∈ (runCycles cfg st inps).1,
        ∀ cid ∈ o.placedStart, cid ∉ o.dispatched := by
  intro cfg st inps
  induction inps generalizing st with
  | nil => intro o ho; cases ho
  | cons i rest ih =>
      intro o ho
      unfold runCycles at ho
      by_cases he : (runCycle cfg st i).exited = true
      · simp only [if_pos he, List.mem_singleton] at ho
        exact ho ▸ runCycle_skips_placed cfg st i
      · simp only [if_neg he, List.mem_cons] at ho
        rcases ho with ho | ho
        · exact ho ▸ runCycle_skips_placed cfg st i
        · exact ih (runCycle cfg st i).st o ho

lemma runCycle_mem_head (cfg : Config) (st : LoopState) (i : CycleInput)
    (rest : List CycleInput) :
    runCycle cfg st i ∈ (runCycles cfg st (i :: rest)).1 := by
  unfold runCycles
  by_cases he : (runCycle cfg st i).exited = true
  · simp [he]
  · simp [he]

/-- Witness for C2: a concrete cycle whose pruned ledger contains c1 and
whose candidate list offers c1 again; c1 is not dispatched. -/
theorem claim_C2_witness :
    "c1" ∈ (runCycle
        ⟨72/100, 1/4, 50, 1, 0, 1000, true, true, 5, 120, 21600, 1800, 2, 120, none⟩
        ⟨[("c1", ⟨.num 3, .null⟩)], [], 0, 1000, [], []⟩
        ⟨10, none, .ok [⟨some "c1", some (1/2), "A", .null, .ok (), .ok ()⟩]⟩).placedStart
    ∧ "c1" ∉ (runCycle
        ⟨72/100, 1/4, 50, 1, 0, 1000, true, true, 5, 120, 21600, 1800, 2, 120, none⟩
        ⟨[("c1", ⟨.num 3, .null⟩)], [], 0, 1000, [], []⟩
        ⟨10, none, .ok [⟨some "c1", some (1/2), "A", .null, .ok (), .ok ()⟩]⟩).dispatched := by
  refine ⟨?_, ?_⟩
  · show "c1" ∈ ["c1"]
    exact List.mem_singleton.mpr rfl
  · exact claim_C2
      ⟨72/100, 1/4, 50, 1, 0, 1000, true, true, 5, 120, 21600, 1800, 2, 120, none⟩
      ⟨[("c1", ⟨.num 3, .null⟩)], [], 0, 1000, [], []⟩
      [⟨10, none, .ok [⟨some "c1", some (1/2), "A", .null, .ok (), .ok ()⟩]⟩]
      _ (runCycle_mem_head _ _ _ _) "c1"
      (show "c1" ∈ ["c1"] from List.mem_singleton.mpr rfl)

/-- C3 as amended: when the live submission raises and the outcome is not
the fatal stop-on-403 block, place_bet appends exactly one trade record
with mode paper and the error text, but - unlike PaperPlaced and
LivePlaced - reports failure: no pick POST is attempted, the bankroll is
unchanged, and the orchestrator therefore inserts nothing into the
ledger for that candidate. -/
theorem claim_C3 :
    ∀ (cfg : Config) (bk : Q) (c : Candidate) (e : String) (s : Q),
      cfg.dryRun = false →
      c.live = Except.error e →
      ¬((extract_cloudflare_ray_id e).isSome = true ∧ cfg.stopOn403 = true) →
      stakeDecision cfg bk c = some s →
      place_bet cfg bk c =
        ⟨false, bk,
          [⟨c.conditionId, round2 s, "paper", some e, extract_cloudflare_ray_id e⟩],
          [], false⟩
      ∧ (∀ (cid : String) (pm : List (String × Row)) (nowI : Int) (n : Nat),
          c.conditionId = some cid → cid ≠ "" → cid ∉ pm.map Prod.fst →
          candLoop cfg nowI [c] pm bk n =
            ⟨pm, bk, [cid],
              [⟨c.conditionId, round2 s, "paper", some e, extract_cloudflare_ray_id e⟩],
              [], false⟩) := by
  intro cfg bk c e s hdry hlive hnofatal hstake
  have hpb : place_bet cfg bk c =
      ⟨false, bk,
        [⟨c.conditionId, round2 s, "paper", some e, extract_cloudflare_ray_id e⟩],
        [], false⟩ := by
    unfold place_bet
    rw [hstake]
    simp only [hdry, Bool.false_eq_true, if_false, hlive]
    rw [if_neg hnofatal]
  refine ⟨hpb, ?_⟩
  intro cid pm nowI n hcid hne hnmem
  unfold candLoop
  rw [hcid]
  simp only [if_neg hne, if_neg hnmem, hpb]
  simp [candLoop, hcid]

/-- Counterexample to C3 as stated: a live failure whose error text is
"boom" appends the paper trade record with the error, but causes no pick
POST, no bankroll decrement and no ledger insertion. -/
theorem claim_C3_counterexample :
    (place_bet ⟨72/100, 1/4, 50, 1, 0, 1000, false, false, 5, 120, 21600, 1800, 2, 120, none⟩
        1000 ⟨some "c1", some (1/2), "A", .null, .error "boom", .ok ()⟩).trades
      = [⟨some "c1", 35, "paper", some "boom", none⟩]
    ∧ (place_bet ⟨72/100, 1/4, 50, 1, 0, 1000, false, false, 5, 120, 21600, 1800, 2, 120, none⟩
        1000 ⟨some "c1", some (1/2), "A", .null, .error "boom", .ok ()⟩).posts = []
    ∧ (place_bet ⟨72/100, 1/4, 50, 1, 0, 1000, false, false, 5, 120, 21600, 1800, 2, 120, none⟩
        1000 ⟨some "c1", some (1/2), "A", .null, .error "boom", .ok ()⟩).bankroll = 1000
    ∧ ¬((place_bet ⟨72/100, 1/4, 50, 1, 0, 1000, false, false, 5, 120, 21600, 1800, 2, 120, none⟩
        1000 ⟨some "c1", some (1/2), "A", .null, .error "boom", .ok ()⟩).bankroll = 1000 - 35)
    ∧ (candLoop ⟨72/100, 1/4, 50, 1, 0, 1000, false, false, 5, 120, 21600, 1800, 2, 120, none⟩
        0 [⟨some "c1", some (1/2), "A", .null, .error "boom", .ok ()⟩] [] 1000 0).pm = [] := by
  exact ⟨rfl, rfl, rfl, by decide, rfl⟩

/-- Witness for C3 at the concrete live-failure candidate. -/
theorem claim_C3_witness :
    place_bet ⟨72/100, 1/4, 50, 1, 0, 1000, false, false, 5, 120, 21600, 1800, 2, 120, none⟩
        1000 ⟨some "c1", some (1/2), "A", .null, .error "boom", .ok ()⟩ =
      ⟨false, 1000, [⟨some "c1", 35, "paper", some "boom", none⟩], [], false⟩ :=
  (claim_C3 ⟨72/100, 1/4, 50, 1, 0, 1000, false, false, 5, 120, 21600, 1800, 2, 120, none⟩
    1000 ⟨some "c1", some (1/2), "A", .null, .error "boom", .ok ()⟩ "boom" 35
    rfl rfl (by decide) (by decide)).1

/-- C4 as amended: a cycle that reaches the fetch/dispatch phase flushes
the full BotState (bankroll, sorted placed list, placedMeta map) via
save_state exactly when its body completes without an uncaught exception
and without the stop-on-403 process exit; a cycle whose fetch raises
skips the flush entirely. -/
theorem claim_C4 :
    (∀ (cfg : Config) (st : LoopState) (inp : CycleInput) (cands : List Candidate),
      inp.fetch = .ok cands →
      (runCycle cfg st inp).fetchAttempted = true →
      (runCycle cfg st inp).exited = false →
      (runCycle cfg st inp).saved =
        some ⟨(runCycle cfg st inp).st.bankroll,
          sortStrings ((runCycle cfg st inp).st.placedMeta.map Prod.fst),
          (runCycle cfg st inp).st.placedMeta⟩)
    ∧ (∀ (cfg : Config) (st : LoopState) (inp : CycleInput) (e : String),
        inp.fetch = .error e → (runCycle cfg st inp).saved = none) := by
  constructor
  · intro cfg st inp cands hf hatt hexit
    unfold runCycle at *
    by_cases hg : gateBlocks cfg inp = true
    · rw [if_pos hg] at hatt; cases hatt
    · rw [if_neg hg] at hatt hexit ⊢
      by_cases hr : rateRejects cfg.maxCallsPerHour
          (rateKept st.callTimestamps inp.now).length = true
      · rw [if_pos hr] at hatt; cases hatt
      · rw [if_neg hr] at hatt hexit ⊢
        simp only [hf] at hatt hexit ⊢
        by_cases he : (candLoop cfg (pyTrunc inp.now) cands
            (prune_placed_meta st.placedMeta (pyTrunc inp.now) cfg.placedTtl
              cfg.placedGrace) st.bankroll 0).exited = true
        · rw [if_pos he] at hexit; cases hexit
        · rw [if_neg he]
  · intro cfg st inp e hf
    unfold runCycle
    by_cases hg : gateBlocks cfg inp = true
    · simp [hg]
    · by_cases hr : rateRejects cfg.maxCallsPerHour
          (rateKept st.callTimestamps inp.now).length = true
      · simp [hg, hr]
      · simp [hg, hr, hf]

/-- Counterexample to C4 as stated: a cycle that reaches the fetch phase
and whose fetch raises performs no flush at all. -/
theorem claim_C4_counterexample :
    (runCycle ⟨72/100, 1/4, 50, 1, 0, 1000, true, true, 5, 0, 21600, 1800, 2, 120, none⟩
        ⟨[], [], 0, 1000, [], []⟩ ⟨10, none, .error "boom"⟩).fetchAttempted = true
    ∧ (runCycle ⟨72/100, 1/4, 50, 1, 0, 1000, true, true, 5, 0, 21600, 1800, 2, 120, none⟩
        ⟨[], [], 0, 1000, [], []⟩ ⟨10, none, .error "boom"⟩).saved = none :=
  ⟨rfl, rfl⟩

/-- Witness for C4 at a concrete successful cycle. -/
theorem claim_C4_witness :
    (runCycle ⟨72/100, 1/4, 50, 1, 0, 1000, true, true, 5, 0, 21600, 1800, 2, 120, none⟩
        ⟨[], [], 0, 1000, [], []⟩
        ⟨10, none, .ok [⟨some "c1", some (1/2), "A", .null, .ok (), .ok ()⟩]⟩).saved =
      some ⟨965, ["c1"], [("c1", ⟨.num (Q.ofInt 10), .null⟩)]⟩ :=
  claim_C4.1 ⟨72/100, 1/4, 50, 1, 0, 1000, true, true, 5, 0, 21600, 1800, 2, 120, none⟩
    ⟨[], [], 0, 1000, [], []⟩
    ⟨10, none, .ok [⟨some "c1", some (1/2), "A", .null, .ok (), .ok ()⟩]⟩
    [⟨some "c1", some (1/2), "A", .null, .ok (), .ok ()⟩] rfl rfl rfl

/-- C5: the ray-id extraction never matches the marker followed by
whitespace - the compiled patterns demand a literal backslash (the raw
source "Cloudflare Ray ID:\\s*" escapes the backslash, not a whitespace
class), so realistic block pages yield none, while a text with a literal
backslash after the colon does match. -/
theorem claim_C5 :
    extract_cloudflare_ray_id "Cloudflare Ray ID: 893f1a2b4c" = none
    ∧ extract_cloudflare_ray_id
        "error code: 1020. Cloudflare Ray ID: <strong>893f1a2b4c</strong>" = none
    ∧ extract_cloudflare_ray_id "Cloudflare Ray ID:\\893f" = some "893f" :=
  ⟨rfl, rfl, rfl⟩

/-- C6 as amended: save_state's file-operation trace is a direct write -
ensure the parent directory, truncate the persisted path, write the new
document into it - with no temporary location and no rename; between the
truncation and the write the persisted path holds an empty document, and
after the full trace it holds the new document. -/
theorem claim_C6 :
    ∀ (path content : String),
      save_state_ops path content =
        [.makedirs (dirname path), .openTrunc path, .writeAll path content]
      ∧ (∀ fs : String → Option String,
          ((save_state_ops path content).take 2).foldl applyOp fs path = some "")
      ∧ (∀ fs : String → Option String,
          (save_state_ops path content).foldl applyOp fs path = some content) := by
  intro path content
  refine ⟨rfl, ?_, ?_⟩
  · intro fs
    simp [save_state_ops, applyOp]
  · intro fs
    simp [save_state_ops, applyOp]

/-- Counterexample to C6 as stated: the trace of save_state contains no
write-to-temporary followed by a promotion, and a crash after its second
operation leaves the persisted path truncated to the empty document,
which is neither the old nor the new state. -/
theorem claim_C6_counterexample :
    ¬ atomicWritePattern "bot/state.json" "NEW"
        (save_state_ops "bot/state.json" "NEW")
    ∧ ((save_state_ops "bot/state.json" "NEW").take 2).foldl applyOp
        (fun q => if q = "bot/state.json" then some "OLD" else none)
        "bot/state.json" = some ""
    ∧ ("" : String) ≠ "OLD" ∧ ("" : String) ≠ "NEW" := by
  refine ⟨?_, by decide, by decide, by decide⟩
  rintro ⟨tmp, hne, hw, hr⟩
  simp [save_state_ops] at hr

/-- C7: the stake-sizing pipeline of place_bet coincides, for every
candidate with a present price, with the specified order of steps:
low-ROI rejection before Kelly, fractional-Kelly raw stake, fixed-stake
override, max-stake ceiling, min-stake rejection; in particular bankroll
1000 with kelly 0.14 and fraction 0.25 yields stake 35, and a fixed stake
of 10 under maxStake 5 yields 5, never 0. -/
theorem claim_C7 :
    (∀ (cfg : Config) (bankroll : Q) (c : Candidate),
      stakeDecision cfg bankroll c = stakeSpec cfg bankroll c)
    ∧ stakeDecision
        ⟨72/100, 1/4, 50, 1, 0, 1000, true, true, 5, 120, 21600, 1800, 2, 120, none⟩
        1000 ⟨some "c1", some (1/2), "A", .null, .ok (), .ok ()⟩ = some 35
    ∧ stakeDecision
        ⟨72/100, 1/4, 5, 1, 10, 1000, true, true, 5, 120, 21600, 1800, 2, 120, none⟩
        1000 ⟨some "c1", some (1/2), "A", .null, .ok (), .ok ()⟩ = some 5
    ∧ kelly_fraction (gradeProb "A") (1/2) = 14/100 :=
  ⟨fun _ _ _ => rfl, rfl, rfl, rfl⟩

/-- C8: kelly_fraction agrees with the specified formula everywhere:
zero outside (0, 1) - in particular at price 0, price 1 and any price
above 1 - and otherwise numerator over b with the no-edge cutoff; at
edge 0.57 and price 0.50 it is exactly 0.14. -/
theorem claim_C8 :
    (∀ p pr : Q, kelly_fraction p pr = kellySpec p pr)
    ∧ (∀ p pr : Q, pr ≤ 0 ∨ 1 ≤ pr → kelly_fraction p pr = 0)
    ∧ (∀ p pr : Q, 1 < pr → kelly_fraction p pr = 0)
    ∧ (∀ p : Q, kelly_fraction p 0 = 0 ∧ kelly_fraction p 1 = 0)
    ∧ kelly_fraction (57/100) (1/2) = 14/100 := by
  have hzero : ∀ p pr : Q, pr ≤ 0 ∨ 1 ≤ pr → kelly_fraction p pr = 0 := by
    intro p pr h
    unfold kelly_fraction
    rw [if_pos h]
  refine ⟨fun _ _ => rfl, hzero, ?_, ?_, rfl⟩
  · intro p pr h
    exact hzero p pr (Or.inr (qle_of_lt h))
  · intro p
    exact ⟨hzero p 0 (Or.inl (by decide)), hzero p 1 (Or.inr (by decide))⟩

/-- Witness for C8 at concrete prices outside the open unit interval. -/
theorem claim_C8_witness :
    kelly_fraction (1/2) 2 = 0 ∧ kelly_fraction (1/2) (3/2) = 0 :=
  ⟨claim_C8.2.1 (1/2) 2 (Or.inr (by decide)),
    claim_C8.2.2.1 (1/2) (3/2) (by decide)⟩

/-- C9 as amended: at the top of an ungated cycle the call window keeps
exactly the timestamps with now - t < 3600 (so a timestamp aged exactly
3600 seconds is dropped as well, not only those strictly older); the
fetch is attempted iff the cap is nonpositive or the kept count is below
it; a rejected cycle performs no fetch, appends no trade, saves nothing
and leaves the BotState dict contents untouched, only the pruned window
and ledger; an admitted cycle appends now to the kept window; with a cap
of 2, two calls inside the hour reject a third, and once the oldest ages
past 3600 seconds a third is admitted. -/
theorem claim_C9 :
    (∀ (w : List Q) (now : Q), rateKept w now = w.filter (fun t => now - t < 3600))
    ∧ (∀ (cap : Int) (kl : Nat), rateRejects cap kl = true ↔ 0 < cap ∧ cap ≤ (kl : Int))
    ∧ (∀ (cfg : Config) (st : LoopState) (inp : CycleInput),
        gateBlocks cfg inp = false →
        (runCycle cfg st inp).fetchAttempted =
          !(rateRejects cfg.maxCallsPerHour (rateKept st.callTimestamps inp.now).length))
    ∧ (∀ (cfg : Config) (st : LoopState) (inp : CycleInput),
        gateBlocks cfg inp = false →
        rateRejects cfg.maxCallsPerHour (rateKept st.callTimestamps inp.now).length = true →
        runCycle cfg st inp =
          ⟨⟨prune_placed_meta st.placedMeta (pyTrunc inp.now) cfg.placedTtl cfg.placedGrace,
              rateKept st.callTimestamps inp.now, st.backoff, st.bankroll,
              st.docPlaced, st.docPlacedMeta⟩,
            (prune_placed_meta st.placedMeta (pyTrunc inp.now) cfg.placedTtl
              cfg.placedGrace).map Prod.fst,
            [], [], [], none, false, false⟩)
    ∧ (∀ (cfg : Config) (st : LoopState) (inp : CycleInput),
        gateBlocks cfg inp = false →
        rateRejects cfg.maxCallsPerHour (rateKept st.callTimestamps inp.now).length = false →
        (runCycle cfg st inp).st.callTimestamps =
          rateKept st.callTimestamps inp.now ++ [inp.now])
    ∧ rateRejects 2 (rateKept [100, 200] 3600).length = true
    ∧ rateRejects 2 (rateKept [0, 200] 3700).length = false := by
  refine ⟨fun _ _ => rfl, ?_, ?_, ?_, ?_, rfl, rfl⟩
  · intro cap kl
    unfold rateRejects
    simp
  · intro cfg st inp hg
    unfold runCycle
    rw [if_neg (by simp [hg])]
    by_cases hr : rateRejects cfg.maxCallsPerHour
        (rateKept st.callTimestamps inp.now).length = true
    · rw [if_pos hr, hr]
      rfl
    · rw [if_neg hr, Bool.not_eq_true] at *
      rw [hr]
      cases hf : inp.fetch with
      | error e => rfl
      | ok cands =>
          by_cases he : (candLoop cfg (pyTrunc inp.now) cands
              (prune_placed_meta st.placedMeta (pyTrunc inp.now) cfg.placedTtl
                cfg.placedGrace) st.bankroll 0).exited = true
          · simp [he]
          · simp [he]
  · intro cfg st inp hg hr
    unfold runCycle
    rw [if_neg (by simp [hg]), if_pos hr]
  · intro cfg st inp hg hr
    unfold runCycle
    rw [if_neg (by simp [hg]), if_neg (by simp [hr])]
    cases hf : inp.fetch with
    | error e => rfl
    | ok cands =>
        by_cases he : (candLoop cfg (pyTrunc inp.now) cands
            (prune_placed_meta st.placedMeta (pyTrunc inp.now) cfg.placedTtl
              cfg.placedGrace) st.bankroll 0).exited = true
        · simp [he]
        · simp [he]

/-- Counterexample to C9 as stated: two calls aged exactly 3600 seconds.
Under the claim's rule (drop only strictly older than 3600) both survive
and a cap of 2 rejects the call, but the loop drops both and attempts the
fetch. -/
theorem claim_C9_counterexample :
    (runCycle ⟨72/100, 1/4, 50, 1, 0, 1000, true, true, 5, 2, 21600, 1800, 2, 120, none⟩
        ⟨[], [0, 0], 0, 1000, [], []⟩ ⟨3600, none, .ok []⟩).fetchAttempted = true
    ∧ admitSpecC9 [0, 0] 3600 2 = false :=
  ⟨rfl, rfl⟩

/-- Witness for C9 at a concrete rejected cycle: two calls inside the
hour, cap 2, so the cycle only prunes and sleeps. -/
theorem claim_C9_witness :
    runCycle ⟨72/100, 1/4, 50, 1, 0, 1000, true, true, 5, 2, 21600, 1800, 2, 120, none⟩
        ⟨[], [100, 200], 0, 1000, [], []⟩ ⟨3600, none, .ok []⟩ =
      ⟨⟨[], [100, 200], 0, 1000, [], []⟩, [], [], [], [], none, false, false⟩ :=
  claim_C9.2.2.2.1
    ⟨72/100, 1/4, 50, 1, 0, 1000, true, true, 5, 2, 21600, 1800, 2, 120, none⟩
    ⟨[], [100, 200], 0, 1000, [], []⟩ ⟨3600, none, .ok []⟩ rfl rfl

lemma insertA_mem_iff (k k' : String) (v v' : Row) :
    ∀ kvs : List (String × Row), (∀ e ∈ kvs, e.2 = v') →
      ((k, v) ∈ insertA kvs k' v' ↔ (k = k' ∧ v = v') ∨ (k, v) ∈ kvs) := by
  intro kvs
  induction kvs with
  | nil =>
      intro _
      simp [insertA, Prod.ext_iff]
  | cons e rest ih =>
      intro hall
      by_cases he : e.1 = k'
      · have h2 := hall e (List.mem_cons_self e rest)
        have heq : e = (k', v') := by
          obtain ⟨e1, e2⟩ := e
          simp only at he h2
          rw [he, h2]
        subst heq
        have hred : insertA ((k', v') :: rest) k' v' = (k', v') :: rest := by
          unfold insertA
          rw [if_pos rfl]
        rw [hred]
        simp only [List.mem_cons]
        constructor
        · intro h; exact Or.inr h
        · rintro (⟨h1, h2'⟩ | h)
          · rw [h1, h2']; exact Or.inl rfl
          · exact h
      · simp only [insertA, if_neg he, List.mem_cons]
        rw [ih (fun x hx => hall x (List.mem_cons_of_mem e hx))]
        tauto

lemma insertA_values (k' : String) (v' : Row) :
    ∀ kvs : List (String × Row), (∀ e ∈ kvs, e.2 = v') →
      ∀ e ∈ insertA kvs k' v', e.2 = v' := by
  intro kvs hall e he
  rcases (insertA_mem_iff e.1 k' e.2 v' kvs hall).mp he with ⟨_, h⟩ | h
  · exact h
  · exact hall e h

lemma legacy_go (now : Int) :
    ∀ (items : List JVal) (acc : List (String × Row)),
      (∀ e ∈ acc, e.2 = (⟨.num (Q.ofInt now), .null⟩ : Row)) →
      ∀ (cid : String) (r : Row),
      ((cid, r) ∈ items.foldl
          (fun acc it => match it with
            | .str s => if s = "" then acc
                else insertA acc s ⟨.num (Q.ofInt now), .null⟩
            | _ => acc) acc ↔
        ((cid, r) ∈ acc ∨ (JVal.str cid ∈ items ∧ cid ≠ "")) ∧
          r = ⟨.num (Q.ofInt now), .null⟩) := by
  intro items
  induction items with
  | nil =>
      intro acc hall cid r
      simp only [List.foldl_nil, List.not_mem_nil, false_and, or_false]
      constructor
      · intro h; exact ⟨h, hall _ h⟩
      · rintro ⟨h, _⟩; exact h
  | cons it rest ih =>
      intro acc hall cid r
      rcases it with _ | b | q | s | xs | kvs
      · rw [List.foldl_cons, ih acc hall cid r]
        simp [List.mem_cons]
      · rw [List.foldl_cons, ih acc hall cid r]
        simp [List.mem_cons]
      · rw [List.foldl_cons, ih acc hall cid r]
        simp [List.mem_cons]
      · by_cases hs : s = ""
        · rw [List.foldl_cons]
          simp only [if_pos hs]
          rw [ih acc hall cid r]
          subst hs
          simp only [List.mem_cons, JVal.str.injEq]
          constructor
          · rintro ⟨h | ⟨hm, hne⟩, hreq⟩
            · exact ⟨Or.inl h, hreq⟩
            · exact ⟨Or.inr ⟨Or.inr hm, hne⟩, hreq⟩
          · rintro ⟨h | ⟨hm | hm, hne⟩, hreq⟩
            · exact ⟨Or.inl h, hreq⟩
            · exact absurd hm hne
            · exact ⟨Or.inr ⟨hm, hne⟩, hreq⟩
        · rw [List.foldl_cons]
          simp only [if_neg hs]
          rw [ih (insertA acc s ⟨.num (Q.ofInt now), .null⟩)
              (insertA_values s _ acc hall) cid r]
          rw [insertA_mem_iff cid s r _ acc hall]
          simp only [List.mem_cons, JVal.str.injEq]
          constructor
          · rintro ⟨(⟨hcs, hr⟩ | h) | ⟨hm, hne⟩, hreq⟩
            · exact ⟨Or.inr ⟨Or.inl hcs, fun hc => hs (hcs ▸ hc)⟩, hreq⟩
            · exact ⟨Or.inl h, hreq⟩
            · exact ⟨Or.inr ⟨Or.inr hm, hne⟩, hreq⟩
          · rintro ⟨h | ⟨hm | hm, hne⟩, hreq⟩
            · exact ⟨Or.inl (Or.inr h), hreq⟩
            · exact ⟨Or.inl (Or.inl ⟨hm, hreq⟩), hreq⟩
            · exact ⟨Or.inr ⟨hm, hne⟩, hreq⟩
      · rw [List.foldl_cons, ih acc hall cid r]
        simp [List.mem_cons]
      · rw [List.foldl_cons, ih acc hall cid r]
        simp [List.mem_cons]

lemma normMeta_go (now : Int) :
    ∀ (kvs : List (String × JVal)) (acc : List (String × Row)),
      (kvs.map Prod.fst).Nodup →
      (∀ k ∈ kvs.map Prod.fst, k ∉ acc.map Prod.fst) →
      kvs.foldl
        (fun acc kv => if kv.1 = "" then acc
          else insertA acc kv.1 (normRow now kv.2)) acc
        = acc ++ (kvs.filter (fun kv => decide (kv.1 ≠ ""))).map
            (fun kv => (kv.1, normRow now kv.2)) := by
  intro kvs
  induction kvs with
  | nil => intro acc _ _; simp
  | cons kv rest ih =>
      intro acc hnd hdisj
      simp only [List.map_cons, List.nodup_cons] at hnd
      by_cases hs : kv.1 = ""
      · rw [List.foldl_cons]
        simp only [if_pos hs]
        rw [ih acc hnd.2 (fun k hk => hdisj k (by simp [hk]))]
        simp [List.filter_cons, hs]
      · rw [List.foldl_cons]
        simp only [if_neg hs]
        rw [insertA_of_not_mem kv.1 (normRow now kv.2) acc (hdisj kv.1 (by simp))]
        rw [ih (acc ++ [(kv.1, normRow now kv.2)]) hnd.2 ?_]
        · simp [List.filter_cons, hs]
        · intro k hk
          simp only [List.map_append, List.mem_append]
          rintro (hc | hc)
          · exact hdisj k (by simp [hk]) hc
          · simp only [List.map_cons, List.map_nil, List.mem_singleton] at hc
            exact hnd.1 (hc ▸ hk)

lemma lookup_mapped (now : Int) (cid : String) (v : JVal) :
    ∀ kvs : List (String × JVal), (kvs.map Prod.fst).Nodup →
      (cid, v) ∈ kvs → cid ≠ "" →
      List.lookup cid ((kvs.filter (fun kv => decide (kv.1 ≠ ""))).map
        (fun kv => (kv.1, normRow now kv.2))) = some (normRow now v) := by
  intro kvs
  induction kvs with
  | nil => intro _ h; cases h
  | cons kv rest ih =>
      intro hnd hmem hne
      simp only [List.map_cons, List.nodup_cons] at hnd
      rcases List.mem_cons.mp hmem with h | h
      · have h1 : kv.1 = cid := by rw [← h]
        have h2 : kv.2 = v := by rw [← h]
        have hkeep : decide (kv.1 ≠ "") = true := by
          simp [h1, hne]
        rw [List.filter_cons, if_pos (by rw [hkeep])]
        simp only [List.map_cons]
        have hbeq : (cid == kv.1) = true := by
          simp [h1]
        simp [List.lookup, hbeq, h2]
      · have hcr : cid ∈ rest.map Prod.fst := by
          have := List.mem_map_of_mem Prod.fst h
          simpa using this
        have hkne : ¬(kv.1 = cid) := fun he => hnd.1 (he ▸ hcr)
        by_cases hs : kv.1 = ""
        · rw [List.filter_cons, if_neg (by simp [hs])]
          exact ih hnd.2 h hne
        · rw [List.filter_cons, if_pos (by simp [hs])]
          simp only [List.map_cons]
          have hbeq : (cid == kv.1) = false := by
            simp [Ne.symm hkne]
          simp only [List.lookup, hbeq]
          exact ih hnd.2 h hne

/-- C10: when the persisted placedMeta field is a dict (even empty) the
ledger is rebuilt exclusively from it and the legacy flat list is ignored
entirely; only when placedMeta is absent or not a dict is the legacy list
consulted, every non-empty string item becoming an entry with
placedAt = now and no event time; within a placedMeta dict, non-dict row
values and unconvertible placedAt values yield placedAt = now. -/
theorem claim_C10 :
    (∀ (kvs : List (String × JVal)) (pl pl' : Option JVal) (now : Int),
      normalize_placed_meta ⟨some (.dict kvs), pl⟩ now
        = normalize_placed_meta ⟨some (.dict kvs), pl'⟩ now)
    ∧ (∀ (pl : Option JVal) (now : Int),
        normalize_placed_meta ⟨some (.dict []), pl⟩ now = [])
    ∧ (∀ (st : RawState) (items : List JVal) (now : Int) (cid : String) (r : Row),
        isDictOpt st.placedMeta = false →
        st.placed = some (.list items) →
        ((cid, r) ∈ normalize_placed_meta st now ↔
          JVal.str cid ∈ items ∧ cid ≠ "" ∧ r = ⟨.num (Q.ofInt now), .null⟩))
    ∧ (∀ (kvs : List (String × JVal)) (pl : Option JVal) (now : Int)
          (cid : String) (v : JVal),
        (kvs.map Prod.fst).Nodup →
        (cid, v) ∈ kvs → cid ≠ "" →
        List.lookup cid (normalize_placed_meta ⟨some (.dict kvs), pl⟩ now)
          = some (normRow now v))
    ∧ (∀ (now : Int) (v : JVal), isDict v = false →
        normRow now v = ⟨.num (Q.ofInt now), .null⟩)
    ∧ (∀ (now : Int) (kvs : List (String × JVal)),
        List.lookup "placedAt" kvs = some (.str "oops") →
        (normRow now (.dict kvs)).placedAt = .num (Q.ofInt now)) := by
  refine ⟨fun _ _ _ _ => rfl, fun _ _ => rfl, ?_, ?_, ?_, ?_⟩
  · intro st items now cid r hnd hpl
    obtain ⟨pm?, pl?⟩ := st
    have hfall : normalize_placed_meta ⟨pm?, pl?⟩ now =
        items.foldl
          (fun acc it => match it with
            | .str s => if s = "" then acc
                else insertA acc s ⟨.num (Q.ofInt now), .null⟩
            | _ => acc) [] := by
      simp only at hpl
      subst hpl
      unfold normalize_placed_meta
      match pm? with
      | none => rfl
      | some .null => rfl
      | some (.bool b) => rfl
      | some (.num q) => rfl
      | some (.str s) => rfl
      | some (.list xs) => rfl
      | some (.dict kvs) => simp [isDictOpt] at hnd
    rw [hfall, legacy_go now items [] (by intro e he; cases he) cid r]
    simp only [List.not_mem_nil, false_or]
    tauto
  · intro kvs pl now cid v hnd hmem hne
    have hn0 : normalize_placed_meta ⟨some (.dict kvs), pl⟩ now =
        kvs.foldl
          (fun acc kv => if kv.1 = "" then acc
            else insertA acc kv.1 (normRow now kv.2)) [] := rfl
    have hn : normalize_placed_meta ⟨some (.dict kvs), pl⟩ now =
        (kvs.filter (fun kv => decide (kv.1 ≠ ""))).map
          (fun kv => (kv.1, normRow now kv.2)) := by
      rw [hn0, normMeta_go now kvs [] hnd (by intro k _; simp)]
      simp
    rw [hn]
    exact lookup_mapped now cid v kvs hnd hmem hne
  · intro now v h
    cases v <;> first | rfl | simp [isDict] at h
  · intro now kvs h
    simp only [normRow]
    rw [h]
    rfl

/-- Witness for C10: a legacy-list state at now = 7 yields exactly the
entry for its non-empty string item, and a dict state's row with an
unconvertible placedAt defaults to now. -/
theorem claim_C10_witness :
    (("x", (⟨.num (Q.ofInt 7), .null⟩ : Row)) ∈
      normalize_placed_meta ⟨none, some (.list [.str "x", .num 3])⟩ 7)
    ∧ List.lookup "c" (normalize_placed_meta
        ⟨some (.dict [("c", .dict [("placedAt", .str "oops")])]), none⟩ 9)
        = some (normRow 9 (.dict [("placedAt", .str "oops")])) :=
  ⟨(claim_C10.2.2.1 ⟨none, some (.list [.str "x", .num 3])⟩ [.str "x", .num 3] 7 "x"
      ⟨.num (Q.ofInt 7), .null⟩ rfl rfl).mpr
      ⟨List.mem_cons_self _ _, by decide, rfl⟩,
    claim_C10.2.2.2.1 [("c", .dict [("placedAt", .str "oops")])] none 9 "c"
      (.dict [("placedAt", .str "oops")]) (by simp) (List.mem_singleton.mpr rfl)
      (by decide)⟩
